import Mathlib

/-!
Verification of `knittingpattern/Dumper.py`.

The module under verification offers a unified interface for serializing
content to several destinations: an in-memory string, a caller-supplied
file-like object, a file at a fixed path, and temporary files.  We give a
shallow embedding of the module.  Python strings are lists of characters,
file-like objects are records carrying their buffer, position and open
mode, and the on-disk state is an explicit association list from paths to
contents.  A write-strategy (`on_dump`) is a state transformer over the
file-like object it is handed, additionally threading an instrumentation
state `σ` (used to observe how many times a callback was invoked) and
optionally raising an exception from `ε` (modelling Python exceptions;
when a strategy raises, the transformer still reports the state the
file-like object had at raise time, since the object itself survives the
exception).
-/

namespace KnittingPattern

/-- Characters of a Python `str`, modelled as a list of characters. -/
abbrev Str := List Char

/-- A filesystem path. -/
abbrev Path := Str

/-- A file-like object: `io.StringIO` buffers and open file handles.
`name` is `none` for an in-memory buffer and `some p` for a handle backed
by the file at path `p`; `mode` and `encoding` record the arguments the
handle was opened with; `delete` models the `delete=` flag of
`tempfile.NamedTemporaryFile` (remove the backing file when the handle is
closed). -/
structure Stream where
  name : Option Path := none
  mode : Str := []
  encoding : Option Str := none
  content : Str := []
  pos : Nat := 0
  closed : Bool := false
  delete : Bool := false
deriving DecidableEq

/-- io.StringIO(): a fresh in-memory text buffer. -/
def newStringBuffer : Stream := {}

/-- Text-stream `write` semantics at a position: overwrite in place,
padding with NUL characters if the position lies beyond the end. -/
def overwriteAt (c : Str) (pos : Nat) (t : Str) : Str :=
  c.take pos ++ List.replicate (pos - c.length) (Char.ofNat 0) ++ t ++ c.drop (pos + t.length)

/-- file.write(t): write `t` at the current position and advance it. -/
def Stream.write (f : Stream) (t : Str) : Stream :=
  { f with content := overwriteAt f.content f.pos t, pos := f.pos + t.length }

/-- file.seek(n). -/
def Stream.seek (f : Stream) (n : Nat) : Stream := { f with pos := n }

/-- file.read(): the text from the current position to the end, and the
handle with its position moved to the end. -/
def Stream.read (f : Stream) : Str × Stream :=
  (f.content.drop f.pos, { f with pos := f.content.length })

/-- Whether the handle was opened readable (`w+` mode, or an in-memory
buffer, which is always readable). -/
def Stream.readable (f : Stream) : Bool :=
  f.name.isNone || f.mode.contains '+'

/-- The state outside the process: the files on disk and a counter from
which fresh temporary-file names are drawn. -/
structure World where
  fs : List (Path × Str) := []
  nextTmp : Nat := 0
deriving DecidableEq

/-- Set the contents of a path in the on-disk map. -/
def fsSet : List (Path × Str) → Path → Str → List (Path × Str)
  | [], p, c => [(p, c)]
  | (q, d) :: rest, p, c =>
    if q = p then (p, c) :: rest else (q, d) :: fsSet rest p c

/-- Look up the contents of a path on disk. -/
def fsGet : List (Path × Str) → Path → Option Str
  | [], _ => none
  | (q, d) :: rest, p => if q = p then some d else fsGet rest p

/-- Remove a path from disk (`os.unlink`). -/
def fsDel : List (Path × Str) → Path → List (Path × Str)
  | [], _ => []
  | (q, d) :: rest, p => if q = p then fsDel rest p else (q, d) :: fsDel rest p

/-- file.close(): flush the buffered content to the backing file, or, for
a `NamedTemporaryFile` opened with `delete=True`, remove the backing file.
Closing an already closed handle or an in-memory buffer leaves the disk
unchanged. -/
def Stream.close (f : Stream) (wo : World) : World × Stream :=
  if f.closed then (wo, f)
  else
    match f.name with
    | none => (wo, { f with closed := true })
    | some p =>
      if f.delete then ({ wo with fs := fsDel wo.fs p }, { f with closed := true })
      else ({ wo with fs := fsSet wo.fs p f.content }, { f with closed := true })

/-- A write-strategy `on_dump(file)`: transforms the file-like object it
is handed, threads an instrumentation state `σ`, and `some e` in the last
component means the strategy raised `e` (the first component is then the
state the file-like object had at raise time). -/
abbrev DumpFn (σ ε : Type) := Stream → σ → Stream × σ × Option ε

/-- ContentDumper: holds the write-strategy passed to its constructor
(`self.__dump_to_file = on_dump`). -/
structure ContentDumper (σ ε : Type) where
  dump_to_file : DumpFn σ ε

/-- ContentDumper.string(): `file = StringIO(); self.__dump_to_file(file);
file.seek(0); return file.read()`.  An exception from the strategy
propagates. -/
def ContentDumper.string (d : ContentDumper σ ε) (st : σ) : Except ε Str × σ :=
  let r := d.dump_to_file newStringBuffer st
  match r.2.2 with
  | some e => (.error e, r.2.1)
  | none => (.ok ((r.1.seek 0).read.1), r.2.1)

/-- ContentDumper.file(file=None): dump into the given file-like object,
or into a fresh `StringIO` if none is given, and return that very object.
The object is never closed here. -/
def ContentDumper.file (d : ContentDumper σ ε) (given : Option Stream) (st : σ) :
    Except ε Stream × σ :=
  let f := given.getD newStringBuffer
  let r := d.dump_to_file f st
  match r.2.2 with
  | some e => (.error e, r.2.1)
  | none => (.ok r.1, r.2.1)

/-- Result of `ContentDumper.path`.  The Python method returns `None`; in
addition to the final disk state, the instrumentation state and the
propagated exception (if any), we expose `handle`, the final state of the
local file object, so that theorems can speak about the handle having been
closed.  It is not accessible to Python callers. -/
structure PathResult (σ ε : Type) where
  world : World
  state : σ
  err : Option ε
  handle : Stream

/-- open(path, "w"): create or truncate the file at `path` and return a
fresh write-only text handle on it. -/
def openForWrite (p : Path) : Stream :=
  { name := some p, mode := ['w'] }

/-- ContentDumper.path(path): `with open(path, "w") as file:
self.__dump_to_file(file)`.  The `with` statement closes the handle on
every exit path, including when the strategy raises; the exception then
propagates unchanged. -/
def ContentDumper.path (d : ContentDumper σ ε) (p : Path) (wo : World) (st : σ) :
    PathResult σ ε :=
  let file := openForWrite p
  let wo := { wo with fs := fsSet wo.fs p [] }
  let r := d.dump_to_file file st
  let c := r.1.close wo
  ⟨c.1, r.2.1, r.2.2, c.2⟩

/-- The name `tempfile` hands out for the `n`-th temporary file. -/
def tempName (n : Nat) : Path := "/tmp/tmp".data ++ (Nat.toDigits 10 n)

/-- Result of the temporary-file methods: the final disk state, the
instrumentation state, the propagated exception (if any), and the
temporary file object (returned open to Python callers on success). -/
structure TempFileResult (σ ε : Type) where
  world : World
  state : σ
  err : Option ε
  handle : Stream

/-- ContentDumper._temporary_file(delete): `file =
NamedTemporaryFile("w+", encoding="UTF8", delete=delete);
self.__dump_to_file(file); return file`.  On an exception from the
strategy the local handle becomes unreachable while the exception
propagates, and CPython's reference counting then finalizes (closes)
it. -/
def ContentDumper.temp_file_impl (d : ContentDumper σ ε) (delete : Bool) (wo : World)
    (st : σ) : TempFileResult σ ε :=
  let nm := tempName wo.nextTmp
  let wo := { wo with nextTmp := wo.nextTmp + 1, fs := fsSet wo.fs nm [] }
  let file : Stream :=
    { name := some nm, mode := ['w', '+'], encoding := some "UTF8".data, delete := delete }
  let r := d.dump_to_file file st
  match r.2.2 with
  | some e =>
    let c := r.1.close wo
    ⟨c.1, r.2.1, some e, c.2⟩
  | none => ⟨wo, r.2.1, none, r.1⟩

/-- ContentDumper.temporary_file(delete_when_closed=True): `return
self._temporary_file(delete_when_closed)`. -/
def ContentDumper.temporary_file (d : ContentDumper σ ε) (delete_when_closed : Bool)
    (wo : World) (st : σ) : TempFileResult σ ε :=
  d.temp_file_impl delete_when_closed wo st

/-- Result of `ContentDumper.temporary_path`: the path the method returns
(`ret`), together with the final state of the temporary file object
(`handle`), which the method drops without returning. -/
structure TempPathResult (σ ε : Type) where
  world : World
  state : σ
  err : Option ε
  ret : Path
  handle : Stream

/-- ContentDumper.temporary_path(): `return
self._temporary_file(False).name`.  The temporary file object's last
reference disappears as the expression completes, so CPython closes the
handle (flushing it); `delete=False` means the file itself stays on
disk. -/
def ContentDumper.temporary_path (d : ContentDumper σ ε) (wo : World) (st : σ) :
    TempPathResult σ ε :=
  let r := d.temp_file_impl false wo st
  let nm := r.handle.name.getD []
  let c := r.handle.close r.world
  ⟨c.1, r.state, r.err, nm, c.2⟩

/-- The elementary write-strategy: write the fixed text `w` to the
file-like object and raise nothing. -/
def writeStrategy (w : Str) : DumpFn σ ε := fun f st => (f.write w, st, none)

/-- A dumper whose strategy writes the fixed text `w`. -/
def pureDumper (w : Str) : ContentDumper σ ε := ⟨writeStrategy w⟩

/-! ### JSON values and the stdlib `json` encoder

`json.dump` writes, with its default options, the object in JSON syntax
with `", "` between items and `": "` after keys.  We model
JSON-representable Python values with integers as the numbers (the claims
under verification use only integer numbers) and dictionaries as
key-value lists in insertion order, which is the order `json.dump`
writes. -/

/-- The decimal digit character for `d < 10`. -/
def digitChar (d : Nat) : Char := Char.ofNat (48 + d)

/-- The decimal digits of `n`, most significant first (`str(n)` for a
natural number). -/
def natToChars (n : Nat) : Str :=
  if _h : n < 10 then [digitChar n]
  else natToChars (n / 10) ++ [digitChar (n % 10)]
termination_by n
decreasing_by exact Nat.div_lt_self (by omega) (by omega)

/-- `str(i)` for an integer: a minus sign followed by the digits of its
absolute value, or just the digits. -/
def intToChars (i : Int) : Str :=
  if i < 0 then '-' :: natToChars i.natAbs else natToChars i.natAbs

/-- The lower-case hex digit for `d < 16`. -/
def hexDigitChar (d : Nat) : Char :=
  if d < 10 then digitChar d else Char.ofNat (87 + d)

/-- How `json.dump` writes one character of a string: quote, backslash and
the common control characters get two-character escapes, the remaining
control characters get a `\\u00XY` escape, and everything else is written
as itself. -/
def escapeChar (c : Char) : Str :=
  if c = '"' then ['\\', '"']
  else if c = '\\' then ['\\', '\\']
  else if c = '\n' then ['\\', 'n']
  else if c = '\t' then ['\\', 't']
  else if c = '\r' then ['\\', 'r']
  else if c.toNat < 32 then
    ['\\', 'u', '0', '0', hexDigitChar (c.toNat / 16), hexDigitChar (c.toNat % 16)]
  else [c]

/-- The escaped body of a string literal. -/
def escapeBody : Str → Str
  | [] => []
  | c :: cs => escapeChar c ++ escapeBody cs

/-- A JSON string literal: quoted escaped body. -/
def encodeStr (s : Str) : Str := '"' :: escapeBody s ++ ['"']

/-- The opening brace character. -/
def lbrace : Char := Char.ofNat 123

/-- The closing brace character. -/
def rbrace : Char := Char.ofNat 125

/-- A JSON-representable Python value. -/
inductive Json where
  | null
  | bool (b : Bool)
  | int (n : Int)
  | str (s : Str)
  | arr (items : List Json)
  | obj (entries : List (Str × Json))

mutual

/-- The text `json.dump` writes for a value (default separators). -/
def Json.encode : Json → Str
  | .null => "null".data
  | .bool true => "true".data
  | .bool false => "false".data
  | .int i => intToChars i
  | .str s => encodeStr s
  | .arr xs => '[' :: Json.encodeItems xs ++ [']']
  | .obj es => lbrace :: Json.encodeEntries es ++ [rbrace]

/-- Array items, separated by `", "`. -/
def Json.encodeItems : List Json → Str
  | [] => []
  | [x] => Json.encode x
  | x :: y :: xs => Json.encode x ++ ',' :: ' ' :: Json.encodeItems (y :: xs)

/-- Object entries, `key: value` separated by `", "`. -/
def Json.encodeEntries : List (Str × Json) → Str
  | [] => []
  | [(k, v)] => encodeStr k ++ ':' :: ' ' :: Json.encode v
  | (k, v) :: e :: es =>
    encodeStr k ++ ':' :: ' ' :: Json.encode v ++ ',' :: ' ' :: Json.encodeEntries (e :: es)

end

mutual

/-- A structural measure used as parser fuel. -/
def Json.size : Json → Nat
  | .null => 1
  | .bool _ => 1
  | .int _ => 1
  | .str _ => 1
  | .arr xs => 1 + Json.sizeItems xs
  | .obj es => 1 + Json.sizeEntries es

/-- Measure of an item list. -/
def Json.sizeItems : List Json → Nat
  | [] => 0
  | x :: xs => 1 + Json.size x + Json.sizeItems xs

/-- Measure of an entry list. -/
def Json.sizeEntries : List (Str × Json) → Nat
  | [] => 0
  | (_, v) :: es => 1 + Json.size v + Json.sizeEntries es

end

/-! ### A model of `json.loads`

A recursive-descent reader of the JSON text `json.dump` produces.  It is
the inverse direction needed to state the round-trip law; the reader
accepts standard JSON punctuation with the whitespace `json.dump` emits
skipped where it can occur. -/

/-- JSON insignificant whitespace: space, newline, tab, carriage
return. -/
def isWs (c : Char) : Bool :=
  c.toNat = 32 || c.toNat = 10 || c.toNat = 9 || c.toNat = 13

/-- Skip insignificant whitespace. -/
def skipWs : Str → Str
  | [] => []
  | c :: cs => if isWs c then skipWs cs else c :: cs

/-- Consume an expected literal text. -/
def dropLit : Str → Str → Option Str
  | [], r => some r
  | _ :: _, [] => none
  | c :: cs, d :: r => if d = c then dropLit cs r else none

/-- Decimal digit test. -/
def isDigitChar (c : Char) : Bool := 48 ≤ c.toNat && c.toNat ≤ 57

/-- Whether a text does not begin with a decimal digit (the condition
under which a numeral followed by that text reads back unchanged). -/
def noDigitHead : Str → Bool
  | [] => true
  | c :: _ => !(isDigitChar c)

/-- Accumulate decimal digits. -/
def parseNatAux : Str → Nat → Nat × Str
  | [], acc => (acc, [])
  | c :: cs, acc =>
    if isDigitChar c then parseNatAux cs (acc * 10 + (c.toNat - 48)) else (acc, c :: cs)

/-- A nonempty run of decimal digits, as a number. -/
def parseNatChars : Str → Option (Nat × Str)
  | [] => none
  | c :: cs => if isDigitChar c then some (parseNatAux (c :: cs) 0) else none

/-- The value of one hex digit. -/
def hexVal (c : Char) : Option Nat :=
  if isDigitChar c then some (c.toNat - 48)
  else if 97 ≤ c.toNat && c.toNat ≤ 102 then some (c.toNat - 87)
  else if 65 ≤ c.toNat && c.toNat ≤ 70 then some (c.toNat - 55)
  else none

/-- The character a two-character escape denotes. -/
def unescape (c : Char) : Option Char :=
  if c = '"' then some '"'
  else if c = '\\' then some '\\'
  else if c = '/' then some '/'
  else if c = 'n' then some '\n'
  else if c = 't' then some '\t'
  else if c = 'r' then some '\r'
  else if c = 'b' then some (Char.ofNat 8)
  else if c = 'f' then some (Char.ofNat 12)
  else none

/-- Read a string body up to and including the closing quote. -/
def parseStrBody : Str → Option (Str × Str)
  | [] => none
  | c :: cs =>
    if c = '"' then some ([], cs)
    else if c = '\\' then
      match cs with
      | [] => none
      | e :: cs2 =>
        if e = 'u' then
          match cs2 with
          | h1 :: h2 :: h3 :: h4 :: cs3 =>
            match hexVal h1, hexVal h2, hexVal h3, hexVal h4 with
            | some a, some b, some c4, some d4 =>
              match parseStrBody cs3 with
              | some (s, r) => some (Char.ofNat (((a * 16 + b) * 16 + c4) * 16 + d4) :: s, r)
              | none => none
            | _, _, _, _ => none
          | _ => none
        else
          match unescape e with
          | some ec =>
            match parseStrBody cs2 with
            | some (s, r) => some (ec :: s, r)
            | none => none
          | none => none
    else
      match parseStrBody cs with
      | some (s, r) => some (c :: s, r)
      | none => none

mutual

/-- Read one JSON value (fueled). -/
def parseVal : Nat → Str → Option (Json × Str)
  | 0, _ => none
  | fuel + 1, s =>
    match skipWs s with
    | [] => none
    | c :: r =>
      if c = 'n' then
        match dropLit "ull".data r with
        | some r2 => some (.null, r2)
        | none => none
      else if c = 't' then
        match dropLit "rue".data r with
        | some r2 => some (.bool true, r2)
        | none => none
      else if c = 'f' then
        match dropLit "alse".data r with
        | some r2 => some (.bool false, r2)
        | none => none
      else if c = '"' then
        match parseStrBody r with
        | some (s2, r2) => some (.str s2, r2)
        | none => none
      else if c = '-' then
        match parseNatChars r with
        | some (n, r2) => some (.int (-(n : Int)), r2)
        | none => none
      else if c = '[' then
        match skipWs r with
        | [] => none
        | c2 :: r2 =>
          if c2 = ']' then some (.arr [], r2)
          else
            match parseItems fuel (c2 :: r2) with
            | some (xs, r3) => some (.arr xs, r3)
            | none => none
      else if c = lbrace then
        match skipWs r with
        | [] => none
        | c2 :: r2 =>
          if c2 = rbrace then some (.obj [], r2)
          else
            match parseEntries fuel (c2 :: r2) with
            | some (es, r3) => some (.obj es, r3)
            | none => none
      else
        match parseNatChars (c :: r) with
        | some (n, r2) => some (.int (n : Int), r2)
        | none => none

/-- Read the items of a nonempty array, including the closing bracket. -/
def parseItems : Nat → Str → Option (List Json × Str)
  | 0, _ => none
  | fuel + 1, s =>
    match parseVal fuel s with
    | some (v, r) =>
      match skipWs r with
      | [] => none
      | c :: r2 =>
        if c = ',' then
          match parseItems fuel r2 with
          | some (vs, r3) => some (v :: vs, r3)
          | none => none
        else if c = ']' then some ([v], r2)
        else none
    | none => none

/-- Read the entries of a nonempty object, including the closing brace. -/
def parseEntries : Nat → Str → Option (List (Str × Json) × Str)
  | 0, _ => none
  | fuel + 1, s =>
    match skipWs s with
    | [] => none
    | c :: r =>
      if c = '"' then
        match parseStrBody r with
        | some (k, r1) =>
          match skipWs r1 with
          | [] => none
          | c2 :: r2 =>
            if c2 = ':' then
              match parseVal fuel r2 with
              | some (v, r3) =>
                match skipWs r3 with
                | [] => none
                | c3 :: r4 =>
                  if c3 = ',' then
                    match parseEntries fuel r4 with
                    | some (es, r5) => some ((k, v) :: es, r5)
                    | none => none
                  else if c3 = rbrace then some ([(k, v)], r4)
                  else none
              | none => none
            else none
        | none => none
      else none

end

/-- json.loads: read one value, allowing trailing whitespace only. -/
def Json.decode (s : Str) : Option Json :=
  match parseVal (s.length + 1) s with
  | some (v, r) => if skipWs r = [] then some v else none
  | none => none

/-! ### JSONDumper -/

/-- A Python value handed to `json.dump`: either a JSON-representable
value or an object `json` cannot serialize, carrying the `TypeError`
that `json.dump` raises for it. -/
inductive PyVal (ε : Type) where
  | val (j : Json)
  | bad (typeErr : ε)

/-- JSONDumper: holds the zero-argument object-provider passed to its
constructor (`self.__dump_to_json = on_dump`).  The provider threads the
instrumentation state `σ` (so invocations can be counted) and may itself
raise. -/
structure JSONDumper (σ ε : Type) where
  dump_to_json : σ → Except ε (PyVal ε) × σ

/-- JSONDumper.object(): `return self.__dump_to_json()` — the provider's
raw, unencoded result. -/
def JSONDumper.object (d : JSONDumper σ ε) (st : σ) : Except ε (PyVal ε) × σ :=
  d.dump_to_json st

/-- JSONDumper._dump_to_file(file): `json.dump(self.object(), file)`.  A
provider exception propagates unchanged; a JSON-representable object is
encoded once and the encoding written; a non-serializable object makes
`json.dump` raise its `TypeError` (modelled at the top level of the
value). -/
def JSONDumper.dump_to_file (d : JSONDumper σ ε) : DumpFn σ ε := fun f st =>
  match d.object st with
  | (.error e, st) => (f, st, some e)
  | (.ok (.val j), st) => (f.write (Json.encode j), st, none)
  | (.ok (.bad e), st) => (f, st, some e)

/-- `super().__init__(self._dump_to_file)`: the ContentDumper inside a
JSONDumper. -/
def JSONDumper.toContentDumper (d : JSONDumper σ ε) : ContentDumper σ ε :=
  ⟨d.dump_to_file⟩

/-- JSONDumper.string(), inherited from ContentDumper. -/
def JSONDumper.string (d : JSONDumper σ ε) (st : σ) : Except ε Str × σ :=
  d.toContentDumper.string st

/-- JSONDumper.file(file=None), inherited from ContentDumper. -/
def JSONDumper.file (d : JSONDumper σ ε) (given : Option Stream) (st : σ) :
    Except ε Stream × σ :=
  d.toContentDumper.file given st

/-- JSONDumper.path(path), inherited from ContentDumper. -/
def JSONDumper.path (d : JSONDumper σ ε) (p : Path) (wo : World) (st : σ) :
    PathResult σ ε :=
  d.toContentDumper.path p wo st

/-- JSONDumper.temporary_path(), inherited from ContentDumper. -/
def JSONDumper.temporary_path (d : JSONDumper σ ε) (wo : World) (st : σ) :
    TempPathResult σ ε :=
  d.toContentDumper.temporary_path wo st

/-- JSONDumper.temporary_file(delete_when_closed=True), inherited from
ContentDumper. -/
def JSONDumper.temporary_file (d : JSONDumper σ ε) (delete_when_closed : Bool)
    (wo : World) (st : σ) : TempFileResult σ ε :=
  d.toContentDumper.temporary_file delete_when_closed wo st

/-- An object-provider returning the fixed JSON-representable value
`x`. -/
def constProvider (x : Json) : JSONDumper σ ε :=
  ⟨fun st => (.ok (.val x), st)⟩

/-- An object-provider that counts its invocations and returns a value
depending on which invocation this is. -/
def countingProvider (f : Nat → Json) : JSONDumper Nat Unit :=
  ⟨fun n => (.ok (.val (f n)), n + 1)⟩

/-- An object-provider that raises on every invocation. -/
def raisingProvider (e : ε) : JSONDumper σ ε :=
  ⟨fun st => (.error e, st)⟩

/-- An object-provider returning a value `json` cannot serialize. -/
def badProvider (e : ε) : JSONDumper σ ε :=
  ⟨fun st => (.ok (.bad e), st)⟩

/-- The concrete scenario value from the specification:
a mapping with keys "a" and "b". -/
def exampleValue : Json :=
  .obj [("a".data, .int 1), ("b".data, .arr [.int 1, .int 2, .int 3])]

/-! ### Elementary facts about the model -/

theorem overwriteAt_nil (t : Str) : overwriteAt [] 0 t = t := by
  simp [overwriteAt]

theorem fsGet_fsSet (fs : List (Path × Str)) (p : Path) (c : Str) :
    fsGet (fsSet fs p c) p = some c := by
  induction fs with
  | nil => simp [fsSet, fsGet]
  | cons hd tl ih =>
    obtain ⟨q, d⟩ := hd
    by_cases h : q = p <;> simp [fsSet, fsGet, h, ih]

theorem fsGet_fsDel (fs : List (Path × Str)) (p : Path) :
    fsGet (fsDel fs p) p = none := by
  induction fs with
  | nil => simp [fsDel, fsGet]
  | cons hd tl ih =>
    obtain ⟨q, d⟩ := hd
    by_cases h : q = p <;> simp [fsDel, fsGet, h, ih]

theorem closed_close (f : Stream) (wo : World) : (f.close wo).2.closed = true := by
  rw [Stream.close]
  split
  · assumption
  · cases f.name
    · simp
    · simp only []
      split <;> simp

/-- The content `string()` reports for the elementary strategy. -/
theorem string_pureDumper {σ ε : Type} (w : Str) (st : σ) :
    (pureDumper (σ := σ) (ε := ε) w).string st = (.ok w, st) := by
  simp [ContentDumper.string, pureDumper, writeStrategy, Stream.write, Stream.seek,
    Stream.read, newStringBuffer, overwriteAt_nil]

/-! ### The modelled encoder reads back: character and numeral facts -/

theorem toNat_ofNat_valid (n : Nat) (h : n < 55296) : (Char.ofNat n).toNat = n := by
  unfold Char.ofNat
  rw [dif_pos (Or.inl h)]
  simp [Char.ofNatAux, Char.toNat, UInt32.toNat, UInt32.ofNatCore, BitVec.toNat_ofNatLt]

theorem toNat_digitChar (d : Nat) (h : d < 10) : (digitChar d).toNat = 48 + d := by
  rw [digitChar, toNat_ofNat_valid _ (by omega)]

theorem isDigitChar_digitChar (d : Nat) (h : d < 10) : isDigitChar (digitChar d) = true := by
  simp [isDigitChar, toNat_digitChar d h]
  omega

theorem digitChar_ne (d : Nat) (h : d < 10) (c : Char) (hc : c.toNat < 48 ∨ 58 ≤ c.toNat) :
    digitChar d ≠ c := by
  intro heq
  have h2 := congrArg Char.toNat heq
  rw [toNat_digitChar d h] at h2
  omega

theorem isWs_digitChar (d : Nat) (h : d < 10) : isWs (digitChar d) = false := by
  simp [isWs, toNat_digitChar d h]
  omega

theorem skipWs_cons (c : Char) (r : Str) (h : isWs c = false) : skipWs (c :: r) = c :: r := by
  simp [skipWs, h]

theorem skipWs_lit (c : Char) (hc : isWs c = false) : ∀ X : Str, skipWs (c :: X) = c :: X :=
  fun X => skipWs_cons c X hc

theorem natToChars_head (n : Nat) : ∃ d t, natToChars n = digitChar d :: t ∧ d < 10 := by
  induction n using Nat.strong_induction_on with
  | _ n ih =>
    rw [natToChars]
    split
    · next h => exact ⟨n, [], rfl, h⟩
    · next h =>
      obtain ⟨d, t, hd, hlt⟩ := ih (n / 10) (Nat.div_lt_self (by omega) (by omega))
      exact ⟨d, t ++ [digitChar (n % 10)], by rw [hd]; simp, hlt⟩

theorem parseNatAux_natToChars (n : Nat) : ∀ (rest : Str) (acc : Nat),
    parseNatAux (natToChars n ++ rest) acc
      = parseNatAux rest (acc * 10 ^ (natToChars n).length + n) := by
  induction n using Nat.strong_induction_on with
  | _ n ih =>
    intro rest acc
    rw [natToChars]
    split
    · next h =>
      simp [parseNatAux, isDigitChar_digitChar n h, toNat_digitChar n h]
    · next h =>
      have hlt := Nat.div_lt_self (show 0 < n by omega) (show 1 < 10 by omega)
      have h10 : n % 10 < 10 := Nat.mod_lt _ (by omega)
      rw [List.append_assoc, ih (n / 10) hlt]
      simp only [List.cons_append, List.nil_append, parseNatAux,
        isDigitChar_digitChar _ h10, toNat_digitChar _ h10, if_pos]
      congr 1
      simp only [List.length_append, List.length_cons, List.length_nil, pow_succ]
      have hmod : 48 + n % 10 - 48 = n % 10 := by omega
      rw [hmod, ← Nat.mul_assoc]
      generalize acc * 10 ^ (natToChars (n / 10)).length = A
      omega

theorem parseNatChars_natToChars (n : Nat) (rest : Str) (h : noDigitHead rest = true) :
    parseNatChars (natToChars n ++ rest) = some (n, rest) := by
  obtain ⟨d, t, hd, hlt⟩ := natToChars_head n
  have hshape : natToChars n ++ rest = digitChar d :: (t ++ rest) := by rw [hd]; simp
  rw [hshape]
  simp only [parseNatChars, if_pos (isDigitChar_digitChar d hlt)]
  rw [← hshape, parseNatAux_natToChars]
  simp only [Nat.zero_mul, Nat.zero_add]
  cases rest with
  | nil => simp [parseNatAux]
  | cons c cs =>
    have hc : isDigitChar c = false := by simpa [noDigitHead] using h
    simp [parseNatAux, hc]

/-! ### The modelled encoder reads back: string literals -/

theorem hexVal_hexDigitChar (m : Nat) (h : m < 16) : hexVal (hexDigitChar m) = some m := by
  interval_cases m <;> decide

theorem parseStrBody_escapeBody : ∀ (s : Str) (rest : Str),
    parseStrBody (escapeBody s ++ '"' :: rest) = some (s, rest) := by
  intro s
  induction s with
  | nil =>
    intro rest
    rw [escapeBody, List.nil_append, parseStrBody.eq_def]
    simp
  | cons c cs ih =>
    intro rest
    rw [escapeBody, List.append_assoc]
    by_cases h1 : c = '"'
    · subst h1
      rw [show escapeChar '"' = ['\\', '"'] from by decide, List.cons_append, List.cons_append,
        List.nil_append, parseStrBody.eq_def]
      simp +decide [unescape, ih]
    · by_cases h2 : c = '\\'
      · subst h2
        rw [show escapeChar '\\' = ['\\', '\\'] from by decide, List.cons_append,
          List.cons_append, List.nil_append, parseStrBody.eq_def]
        simp +decide [unescape, ih]
      · by_cases h3 : c = '\n'
        · subst h3
          rw [show escapeChar '\n' = ['\\', 'n'] from by decide, List.cons_append,
            List.cons_append, List.nil_append, parseStrBody.eq_def]
          simp +decide [unescape, ih]
        · by_cases h4 : c = '\t'
          · subst h4
            rw [show escapeChar '\t' = ['\\', 't'] from by decide, List.cons_append,
              List.cons_append, List.nil_append, parseStrBody.eq_def]
            simp +decide [unescape, ih]
          · by_cases h5 : c = '\r'
            · subst h5
              rw [show escapeChar '\r' = ['\\', 'r'] from by decide, List.cons_append,
                List.cons_append, List.nil_append, parseStrBody.eq_def]
              simp +decide [unescape, ih]
            · by_cases h6 : c.toNat < 32
              · have hdiv : c.toNat / 16 < 16 := by omega
                have hmod : c.toNat % 16 < 16 := by omega
                have hval : c.toNat / 16 * 16 + c.toNat % 16 = c.toNat := by omega
                simp only [escapeChar, if_neg h1, if_neg h2, if_neg h3, if_neg h4, if_neg h5,
                  if_pos h6, List.cons_append, List.nil_append]
                rw [parseStrBody.eq_def]
                simp +decide [hexVal_hexDigitChar _ hdiv, hexVal_hexDigitChar _ hmod,
                  show hexVal '0' = some 0 from by decide, ih, hval, Char.ofNat_toNat]
              · have hq : c ≠ '"' := h1
                have hb : c ≠ '\\' := h2
                simp only [escapeChar, if_neg h1, if_neg h2, if_neg h3, if_neg h4, if_neg h5,
                  if_neg h6, List.cons_append, List.nil_append]
                rw [parseStrBody.eq_def]
                simp [hq, hb, ih]

/-! ### The modelled encoder reads back: values -/

theorem Json.size_pos (x : Json) : 1 ≤ Json.size x := by
  cases x <;> simp [Json.size]

theorem dropLit_self : ∀ (lit r : Str), dropLit lit (lit ++ r) = some r
  | [], _ => rfl
  | c :: cs, r => by simp [dropLit, dropLit_self cs r]

theorem parseVal_cons_ws (fuel : Nat) (c : Char) (s : Str) (h : isWs c = true) :
    parseVal fuel (c :: s) = parseVal fuel s := by
  cases fuel with
  | zero => rfl
  | succ fuel => simp [parseVal, skipWs, h]

theorem parseItems_cons_ws (fuel : Nat) (c : Char) (s : Str) (h : isWs c = true) :
    parseItems fuel (c :: s) = parseItems fuel s := by
  cases fuel with
  | zero => rfl
  | succ fuel => simp [parseItems, parseVal_cons_ws fuel c s h]

theorem parseEntries_cons_ws (fuel : Nat) (c : Char) (s : Str) (h : isWs c = true) :
    parseEntries fuel (c :: s) = parseEntries fuel s := by
  cases fuel with
  | zero => rfl
  | succ fuel => simp [parseEntries, skipWs, h]

theorem encodeItems_cons (x : Json) (xs : List Json) :
    ∃ u, Json.encodeItems (x :: xs) = Json.encode x ++ u := by
  cases xs with
  | nil => exact ⟨[], by simp [Json.encodeItems]⟩
  | cons y ys => exact ⟨',' :: ' ' :: Json.encodeItems (y :: ys), by simp [Json.encodeItems]⟩

theorem encode_head (x : Json) :
    ∃ c t, Json.encode x = c :: t ∧ isWs c = false ∧ c ≠ ']' := by
  cases x with
  | null => exact ⟨'n', "ull".data, rfl, by decide, by decide⟩
  | bool b =>
    cases b with
    | false => exact ⟨'f', "alse".data, rfl, by decide, by decide⟩
    | true => exact ⟨'t', "rue".data, rfl, by decide, by decide⟩
  | int i =>
    by_cases hi : i < 0
    · exact ⟨'-', natToChars i.natAbs, by simp [Json.encode, intToChars, hi], by decide,
        by decide⟩
    · obtain ⟨d, t, hd, hlt⟩ := natToChars_head i.natAbs
      exact ⟨digitChar d, t, by simp [Json.encode, intToChars, hi, hd],
        isWs_digitChar d hlt, digitChar_ne d hlt ']' (by decide)⟩
  | str s =>
    exact ⟨'"', escapeBody s ++ ['"'], by simp [Json.encode, encodeStr], by decide, by decide⟩
  | arr xs => exact ⟨'[', Json.encodeItems xs ++ [']'], by simp [Json.encode], by decide,
      by decide⟩
  | obj es => exact ⟨lbrace, Json.encodeEntries es ++ [rbrace], by simp [Json.encode],
      by decide, by decide⟩

theorem encodeEntries_cons (k : Str) (v : Json) (es : List (Str × Json)) :
    ∃ u, Json.encodeEntries ((k, v) :: es) = '"' :: (escapeBody k ++ '"' :: u) := by
  cases es with
  | nil => exact ⟨':' :: ' ' :: Json.encode v, by simp [Json.encodeEntries, encodeStr]⟩
  | cons e2 es2 =>
    exact ⟨':' :: ' ' :: (Json.encode v ++ ',' :: ' ' :: Json.encodeEntries (e2 :: es2)),
      by simp [Json.encodeEntries, encodeStr]⟩

theorem roundtrip_main : ∀ (fuel : Nat),
    (∀ (x : Json) (rest : Str), Json.size x ≤ fuel → noDigitHead rest = true →
      parseVal fuel (Json.encode x ++ rest) = some (x, rest)) ∧
    (∀ (xs : List Json) (rest : Str), xs ≠ [] → Json.sizeItems xs ≤ fuel →
      parseItems fuel (Json.encodeItems xs ++ ']' :: rest) = some (xs, rest)) ∧
    (∀ (es : List (Str × Json)) (rest : Str), es ≠ [] → Json.sizeEntries es ≤ fuel →
      parseEntries fuel (Json.encodeEntries es ++ rbrace :: rest) = some (es, rest)) := by
  intro fuel
  induction fuel with
  | zero =>
    refine ⟨fun x rest hsz _ => ?_, fun xs rest hne hsz => ?_, fun es rest hne hsz => ?_⟩
    · have := Json.size_pos x; omega
    · cases xs with
      | nil => exact absurd rfl hne
      | cons x xs2 => simp [Json.sizeItems] at hsz
    · cases es with
      | nil => exact absurd rfl hne
      | cons e es2 =>
        obtain ⟨k, v⟩ := e
        simp [Json.sizeEntries] at hsz
  | succ fuel ih =>
    obtain ⟨ihv, ihi, ihe⟩ := ih
    refine ⟨?_, ?_, ?_⟩
    · intro x rest hsz hnd
      cases x with
      | null =>
        rw [show Json.encode Json.null ++ rest = 'n' :: ("ull".data ++ rest) from rfl]
        rw [parseVal.eq_def]
        simp +decide [skipWs_lit 'n' (by decide), dropLit_self, dropLit]
      | bool b =>
        cases b with
        | true =>
          rw [show Json.encode (Json.bool true) ++ rest = 't' :: ("rue".data ++ rest) from rfl]
          rw [parseVal.eq_def]
          simp +decide [skipWs_lit 't' (by decide), dropLit_self, dropLit]
        | false =>
          rw [show Json.encode (Json.bool false) ++ rest
              = 'f' :: ("alse".data ++ rest) from rfl]
          rw [parseVal.eq_def]
          simp +decide [skipWs_lit 'f' (by decide), dropLit_self, dropLit]
      | str s =>
        rw [show Json.encode (Json.str s) ++ rest = '"' :: (escapeBody s ++ '"' :: rest) from by
          simp [Json.encode, encodeStr]]
        rw [parseVal.eq_def]
        simp +decide [skipWs_lit '"' (by decide), parseStrBody_escapeBody]
      | int i =>
        by_cases hi : i < 0
        · rw [show Json.encode (Json.int i) ++ rest
              = '-' :: (natToChars i.natAbs ++ rest) from by simp [Json.encode, intToChars, hi]]
          rw [parseVal.eq_def]
          simp +decide [skipWs_lit '-' (by decide), parseNatChars_natToChars _ _ hnd]
          rw [abs_of_neg hi, neg_neg]
        · obtain ⟨d, t, hd, hlt⟩ := natToChars_head i.natAbs
          have hsh : Json.encode (Json.int i) ++ rest = digitChar d :: (t ++ rest) := by
            simp [Json.encode, intToChars, hi, hd]
          have e1 := digitChar_ne d hlt 'n' (by decide)
          have e2 := digitChar_ne d hlt 't' (by decide)
          have e3 := digitChar_ne d hlt 'f' (by decide)
          have e4 := digitChar_ne d hlt '"' (by decide)
          have e5 := digitChar_ne d hlt '-' (by decide)
          have e6 := digitChar_ne d hlt '[' (by decide)
          have e7 := digitChar_ne d hlt lbrace (by decide)
          have hpn : parseNatChars (digitChar d :: (t ++ rest)) = some (i.natAbs, rest) := by
            rw [show digitChar d :: (t ++ rest) = natToChars i.natAbs ++ rest from by
              rw [hd]; simp]
            exact parseNatChars_natToChars _ _ hnd
          rw [hsh, parseVal.eq_def]
          simp [skipWs_lit (digitChar d) (isWs_digitChar d hlt), e1, e2, e3, e4, e5, e6, e7, hpn]
          omega
      | arr xs =>
        cases xs with
        | nil =>
          rw [show Json.encode (Json.arr []) ++ rest = '[' :: (']' :: rest) from by
            simp [Json.encode, Json.encodeItems]]
          rw [parseVal.eq_def]
          simp +decide [skipWs_lit '[' (by decide), skipWs_lit ']' (by decide)]
        | cons x xs2 =>
          obtain ⟨u, hu⟩ := encodeItems_cons x xs2
          obtain ⟨c, t, hc, hws, hnb⟩ := encode_head x
          have hsh : Json.encode (Json.arr (x :: xs2)) ++ rest
              = '[' :: (Json.encodeItems (x :: xs2) ++ ']' :: rest) := by
            simp [Json.encode]
          have hsh2 : Json.encodeItems (x :: xs2) ++ ']' :: rest
              = c :: (t ++ (u ++ ']' :: rest)) := by
            rw [hu, hc]; simp
          have hskip : skipWs (Json.encodeItems (x :: xs2) ++ ']' :: rest)
              = c :: (t ++ (u ++ ']' :: rest)) := by
            rw [hsh2]; exact skipWs_cons _ _ hws
          have hitems2 : parseItems fuel (c :: (t ++ (u ++ ']' :: rest)))
              = some (x :: xs2, rest) := by
            rw [← hsh2]
            refine ihi (x :: xs2) rest (by simp) ?_
            simp [Json.size] at hsz
            omega
          rw [hsh, parseVal.eq_def]
          simp +decide [skipWs_lit '[' (by decide), hskip, hnb, hitems2]
      | obj es =>
        cases es with
        | nil =>
          rw [show Json.encode (Json.obj []) ++ rest = lbrace :: (rbrace :: rest) from by
            simp [Json.encode, Json.encodeEntries]]
          rw [parseVal.eq_def]
          simp +decide [skipWs_lit lbrace (by decide), skipWs_lit rbrace (by decide)]
        | cons e es2 =>
          obtain ⟨k, v⟩ := e
          obtain ⟨u, hu⟩ := encodeEntries_cons k v es2
          have hsh : Json.encode (Json.obj ((k, v) :: es2)) ++ rest
              = lbrace :: (Json.encodeEntries ((k, v) :: es2) ++ rbrace :: rest) := by
            simp [Json.encode]
          have hsh2 : Json.encodeEntries ((k, v) :: es2) ++ rbrace :: rest
              = '"' :: (escapeBody k ++ '"' :: (u ++ rbrace :: rest)) := by
            rw [hu]; simp
          have hskip : skipWs (Json.encodeEntries ((k, v) :: es2) ++ rbrace :: rest)
              = '"' :: (escapeBody k ++ '"' :: (u ++ rbrace :: rest)) := by
            rw [hsh2]; exact skipWs_cons _ _ (by decide)
          have hentry2 : parseEntries fuel
              ('"' :: (escapeBody k ++ '"' :: (u ++ rbrace :: rest)))
              = some ((k, v) :: es2, rest) := by
            rw [← hsh2]
            refine ihe _ rest (by simp) ?_
            simp [Json.size] at hsz
            omega
          rw [hsh, parseVal.eq_def]
          simp +decide [skipWs_lit lbrace (by decide), hskip, hentry2]
    · intro xs rest hne hsz
      cases xs with
      | nil => exact absurd rfl hne
      | cons x xs2 =>
        cases xs2 with
        | nil =>
          have hval : parseVal fuel (Json.encode x ++ ']' :: rest) = some (x, ']' :: rest) := by
            refine ihv x (']' :: rest) ?_ (by rfl)
            simp [Json.sizeItems] at hsz
            omega
          rw [show Json.encodeItems [x] ++ ']' :: rest = Json.encode x ++ ']' :: rest from by
            simp [Json.encodeItems]]
          rw [parseItems.eq_def]
          simp +decide [hval, skipWs_lit ']' (by decide)]
        | cons y ys =>
          have hval : parseVal fuel
              (Json.encode x ++ ',' :: ' ' :: (Json.encodeItems (y :: ys) ++ ']' :: rest))
              = some (x, ',' :: ' ' :: (Json.encodeItems (y :: ys) ++ ']' :: rest)) := by
            refine ihv x _ ?_ (by rfl)
            simp [Json.sizeItems] at hsz
            omega
          have hrec : parseItems fuel (' ' :: (Json.encodeItems (y :: ys) ++ ']' :: rest))
              = some (y :: ys, rest) := by
            rw [parseItems_cons_ws fuel ' ' _ (by decide)]
            refine ihi (y :: ys) rest (by simp) ?_
            simp [Json.sizeItems] at hsz ⊢
            omega
          rw [show Json.encodeItems (x :: y :: ys) ++ ']' :: rest
              = Json.encode x ++ (',' :: ' ' :: (Json.encodeItems (y :: ys) ++ ']' :: rest))
              from by simp [Json.encodeItems]]
          rw [parseItems.eq_def]
          simp +decide [hval, skipWs_lit ',' (by decide), hrec]
    · intro es rest hne hsz
      cases es with
      | nil => exact absurd rfl hne
      | cons e es2 =>
        obtain ⟨k, v⟩ := e
        cases es2 with
        | nil =>
          have hv : parseVal fuel (' ' :: (Json.encode v ++ rbrace :: rest))
              = some (v, rbrace :: rest) := by
            rw [parseVal_cons_ws fuel ' ' _ (by decide)]
            refine ihv v _ ?_ (by rfl)
            simp [Json.sizeEntries] at hsz
            omega
          rw [show Json.encodeEntries [(k, v)] ++ rbrace :: rest
              = '"' :: (escapeBody k ++ '"' ::
                  (':' :: ' ' :: (Json.encode v ++ rbrace :: rest)))
              from by simp [Json.encodeEntries, encodeStr]]
          rw [parseEntries.eq_def]
          simp +decide [skipWs_lit '"' (by decide), parseStrBody_escapeBody,
            skipWs_lit ':' (by decide), hv, skipWs_lit rbrace (by decide)]
        | cons e2 es3 =>
          obtain ⟨k2, v2⟩ := e2
          have hv : parseVal fuel (' ' :: (Json.encode v ++ ',' :: ' ' ::
                (Json.encodeEntries ((k2, v2) :: es3) ++ rbrace :: rest)))
              = some (v, ',' :: ' ' ::
                (Json.encodeEntries ((k2, v2) :: es3) ++ rbrace :: rest)) := by
            rw [parseVal_cons_ws fuel ' ' _ (by decide)]
            refine ihv v _ ?_ (by rfl)
            simp [Json.sizeEntries] at hsz
            omega
          have hrec : parseEntries fuel (' ' ::
              (Json.encodeEntries ((k2, v2) :: es3) ++ rbrace :: rest))
              = some ((k2, v2) :: es3, rest) := by
            rw [parseEntries_cons_ws fuel ' ' _ (by decide)]
            refine ihe _ rest (by simp) ?_
            simp [Json.sizeEntries] at hsz ⊢
            omega
          rw [show Json.encodeEntries ((k, v) :: (k2, v2) :: es3) ++ rbrace :: rest
              = '"' :: (escapeBody k ++ '"' :: (':' :: ' ' :: (Json.encode v ++ ',' :: ' ' ::
                  (Json.encodeEntries ((k2, v2) :: es3) ++ rbrace :: rest))))
              from by simp [Json.encodeEntries, encodeStr]]
          rw [parseEntries.eq_def]
          simp +decide [skipWs_lit '"' (by decide), parseStrBody_escapeBody,
            skipWs_lit ':' (by decide), hv, skipWs_lit ',' (by decide), hrec]

theorem size_le_main : ∀ (k : Nat),
    (∀ x : Json, Json.size x ≤ k → Json.size x ≤ (Json.encode x).length) ∧
    (∀ xs : List Json, Json.sizeItems xs ≤ k →
      Json.sizeItems xs ≤ (Json.encodeItems xs).length + 1) ∧
    (∀ es : List (Str × Json), Json.sizeEntries es ≤ k →
      Json.sizeEntries es ≤ (Json.encodeEntries es).length + 1) := by
  intro k
  induction k with
  | zero =>
    refine ⟨fun x hsz => ?_, fun xs hsz => ?_, fun es hsz => ?_⟩
    · have := Json.size_pos x; omega
    · cases xs with
      | nil => simp [Json.sizeItems]
      | cons x xs' => simp [Json.sizeItems] at hsz
    · cases es with
      | nil => simp [Json.sizeEntries]
      | cons e es' =>
        obtain ⟨a, b⟩ := e
        simp [Json.sizeEntries] at hsz
  | succ k ih =>
    obtain ⟨ihv, ihi, ihe⟩ := ih
    refine ⟨fun x hsz => ?_, fun xs hsz => ?_, fun es hsz => ?_⟩
    · cases x with
      | null => simp [Json.size, Json.encode]
      | bool b => cases b <;> simp [Json.size, Json.encode]
      | int i =>
        obtain ⟨d, t, hd, _⟩ := natToChars_head i.natAbs
        by_cases hi : i < 0 <;> simp [Json.size, Json.encode, intToChars, hi, hd]
      | str s => simp [Json.size, Json.encode, encodeStr]
      | arr xs =>
        have h2 : Json.sizeItems xs ≤ (Json.encodeItems xs).length + 1 := by
          refine ihi xs ?_
          simp [Json.size] at hsz
          omega
        simp [Json.size, Json.encode] at hsz ⊢
        omega
      | obj es =>
        have h2 : Json.sizeEntries es ≤ (Json.encodeEntries es).length + 1 := by
          refine ihe es ?_
          simp [Json.size] at hsz
          omega
        simp [Json.size, Json.encode] at hsz ⊢
        omega
    · cases xs with
      | nil => simp [Json.sizeItems]
      | cons x xs' =>
        have h1 : Json.size x ≤ (Json.encode x).length := by
          refine ihv x ?_
          simp [Json.sizeItems] at hsz
          omega
        cases xs' with
        | nil =>
          simp [Json.sizeItems, Json.encodeItems] at hsz ⊢
          omega
        | cons y ys =>
          have h2 : Json.sizeItems (y :: ys) ≤ (Json.encodeItems (y :: ys)).length + 1 := by
            refine ihi _ ?_
            simp [Json.sizeItems] at hsz ⊢
            omega
          simp [Json.sizeItems, Json.encodeItems] at hsz h2 ⊢
          omega
    · cases es with
      | nil => simp [Json.sizeEntries]
      | cons e es' =>
        obtain ⟨ky, v⟩ := e
        have h1 : Json.size v ≤ (Json.encode v).length := by
          refine ihv v ?_
          simp [Json.sizeEntries] at hsz
          omega
        cases es' with
        | nil =>
          simp [Json.sizeEntries, Json.encodeEntries, encodeStr] at hsz ⊢
          omega
        | cons e2 es2 =>
          obtain ⟨k2, v2⟩ := e2
          have h2 : Json.sizeEntries ((k2, v2) :: es2)
              ≤ (Json.encodeEntries ((k2, v2) :: es2)).length + 1 := by
            refine ihe _ ?_
            simp [Json.sizeEntries] at hsz ⊢
            omega
          simp [Json.sizeEntries, Json.encodeEntries, encodeStr] at hsz h2 ⊢
          omega

/-- Reading back what the modelled `json.dump` wrote yields the value it
was written from. -/
theorem Json.decode_encode (x : Json) : Json.decode (Json.encode x) = some x := by
  have h1 : Json.size x ≤ (Json.encode x).length := (size_le_main (Json.size x)).1 x le_rfl
  have h := (roundtrip_main ((Json.encode x).length + 1)).1 x [] (by omega) (by rfl)
  rw [List.append_nil] at h
  rw [Json.decode, h]
  simp [skipWs]

/-! ### Claims about ContentDumper -/

/-- C1: for a Dumper with write-strategy `w`, `string()` creates one
fresh in-memory buffer, invokes the strategy on it once (witnessed by the
instrumentation state taking exactly the strategy's one-step value), and
returns the buffer's full content as the result. -/
theorem string_returns_strategy_output {σ ε : Type} (d : ContentDumper σ ε)
    (st st2 : σ) (f : Stream) (h : d.dump_to_file newStringBuffer st = (f, st2, none)) :
    d.string st = (.ok f.content, st2) := by
  simp [ContentDumper.string, h, Stream.seek, Stream.read]

theorem string_returns_strategy_output_witness :
    (pureDumper (σ := Unit) (ε := Unit) "hi".data).string () = (.ok "hi".data, ()) := by
  have h := string_returns_strategy_output (pureDumper (σ := Unit) (ε := Unit) "hi".data) () ()
    (newStringBuffer.write "hi".data) rfl
  simpa [newStringBuffer, Stream.write, overwriteAt] using h

/-- C2: `temporary_path()` creates a temporary file on disk, writes the
content, and the handle is closed (flushed) before the method returns its
path; the file is not marked for deletion and still exists on disk
afterwards, with contents equal to `string()`'s result. -/
theorem temporary_path_spec {σ ε : Type} (w : Str) (wo : World) (st : σ) :
    ((pureDumper (σ := σ) (ε := ε) w).temporary_path wo st).err = none ∧
    ((pureDumper (σ := σ) (ε := ε) w).temporary_path wo st).handle.closed = true ∧
    ((pureDumper (σ := σ) (ε := ε) w).temporary_path wo st).ret = tempName wo.nextTmp ∧
    fsGet ((pureDumper (σ := σ) (ε := ε) w).temporary_path wo st).world.fs
      (tempName wo.nextTmp) = some w ∧
    ((pureDumper (σ := σ) (ε := ε) w).temporary_path wo st).handle.delete = false ∧
    (pureDumper (σ := σ) (ε := ε) w).string st = (.ok w, st) := by
  refine ⟨?_, ?_, ?_, ?_, ?_, string_pureDumper w st⟩ <;>
    simp [ContentDumper.temporary_path, ContentDumper.temp_file_impl, pureDumper,
      writeStrategy, Stream.write, Stream.close, overwriteAt_nil, fsGet_fsSet]

/-- C3: `path(p)` creates (or truncates) the file at `p` and leaves it
holding exactly `string()`'s result; the local handle is closed on every
exit path, whatever the strategy does, and the strategy's exception (or
absence of one) is propagated unchanged. -/
theorem path_spec :
    (∀ (σ ε : Type) (d : ContentDumper σ ε) (p : Path) (wo : World) (st : σ),
      (d.path p wo st).handle.closed = true ∧
      (d.path p wo st).err = (d.dump_to_file (openForWrite p) st).2.2) ∧
    (∀ (σ ε : Type) (w : Str) (p : Path) (wo : World) (st : σ),
      fsGet ((pureDumper (σ := σ) (ε := ε) w).path p wo st).world.fs p = some w ∧
      ((pureDumper (σ := σ) (ε := ε) w).path p wo st).err = none ∧
      (pureDumper (σ := σ) (ε := ε) w).string st = (.ok w, st)) := by
  constructor
  · intro σ ε d p wo st
    exact ⟨closed_close _ _, rfl⟩
  · intro σ ε w p wo st
    refine ⟨?_, rfl, string_pureDumper w st⟩
    simp [ContentDumper.path, pureDumper, writeStrategy, Stream.write, Stream.close,
      openForWrite, overwriteAt_nil, fsGet_fsSet]

/-- C4: `temporary_file(delete_when_closed)` creates a temporary file,
writes the content, and returns a still-open handle whose position is at
the end of the content and whose `name` holds the file's path; closing the
handle removes the file from disk when `delete_when_closed` is true, and
leaves it on disk with the written content when it is false. -/
theorem temporary_file_spec {σ ε : Type} (w : Str) (wo : World) (st : σ) :
    (∀ b : Bool,
      ((pureDumper (σ := σ) (ε := ε) w).temporary_file b wo st).err = none ∧
      ((pureDumper (σ := σ) (ε := ε) w).temporary_file b wo st).handle.closed = false ∧
      ((pureDumper (σ := σ) (ε := ε) w).temporary_file b wo st).handle.content = w ∧
      ((pureDumper (σ := σ) (ε := ε) w).temporary_file b wo st).handle.pos = w.length ∧
      ((pureDumper (σ := σ) (ε := ε) w).temporary_file b wo st).handle.name =
        some (tempName wo.nextTmp) ∧
      ((pureDumper (σ := σ) (ε := ε) w).temporary_file b wo st).handle.delete = b) ∧
    fsGet (((pureDumper (σ := σ) (ε := ε) w).temporary_file true wo st).handle.close
        ((pureDumper (σ := σ) (ε := ε) w).temporary_file true wo st).world).1.fs
      (tempName wo.nextTmp) = none ∧
    fsGet (((pureDumper (σ := σ) (ε := ε) w).temporary_file false wo st).handle.close
        ((pureDumper (σ := σ) (ε := ε) w).temporary_file false wo st).world).1.fs
      (tempName wo.nextTmp) = some w := by
  refine ⟨fun b => ?_, ?_, ?_⟩ <;>
    simp [ContentDumper.temporary_file, ContentDumper.temp_file_impl, pureDumper,
      writeStrategy, Stream.write, Stream.close, overwriteAt_nil, fsGet_fsSet, fsGet_fsDel]

/-- C7: `file(s)` for a caller-supplied stream `s` writes the content into
`s` and returns exactly the object the strategy produced; for a
write-strategy this is `s` itself with the content written at its
position, the read/write position directly after the written content, and
the stream not closed (its `closed`, `name` and `mode` are untouched). -/
theorem file_given_stream_spec :
    (∀ (σ ε : Type) (d : ContentDumper σ ε) (s : Stream) (st st2 : σ) (f : Stream),
      d.dump_to_file s st = (f, st2, none) → d.file (some s) st = (.ok f, st2)) ∧
    (∀ (σ ε : Type) (w : Str) (s : Stream) (st : σ),
      (pureDumper (σ := σ) (ε := ε) w).file (some s) st = (.ok (s.write w), st) ∧
      (s.write w).closed = s.closed ∧
      (s.write w).pos = s.pos + w.length ∧
      (s.write w).name = s.name ∧
      (s.write w).mode = s.mode) := by
  constructor
  · intro σ ε d s st st2 f h
    simp [ContentDumper.file, h]
  · intro σ ε w s st
    refine ⟨?_, rfl, rfl, rfl, rfl⟩
    simp [ContentDumper.file, pureDumper, writeStrategy]

theorem file_given_stream_spec_witness :
    (pureDumper (σ := Unit) (ε := Unit) "b".data).file (some (newStringBuffer.write "a".data)) ()
      = (.ok ((newStringBuffer.write "a".data).write "b".data), ()) :=
  file_given_stream_spec.1 Unit Unit (pureDumper "b".data)
    (newStringBuffer.write "a".data) () () ((newStringBuffer.write "a".data).write "b".data) rfl

/-- C8: the buffer `file(None)` returns and the string `string()` returns
carry identical content: both are the result of the strategy run once on
a fresh in-memory buffer. -/
theorem file_none_eq_string {σ ε : Type} (d : ContentDumper σ ε) (st st2 : σ) (f : Stream)
    (h : d.dump_to_file newStringBuffer st = (f, st2, none)) :
    d.file none st = (.ok f, st2) ∧ d.string st = (.ok f.content, st2) := by
  constructor
  · simp [ContentDumper.file, h]
  · simp [ContentDumper.string, h, Stream.seek, Stream.read]

theorem file_none_eq_string_witness :
    (pureDumper (σ := Unit) (ε := Unit) "xy".data).file none ()
        = (.ok (newStringBuffer.write "xy".data), ()) ∧
      (pureDumper (σ := Unit) (ε := Unit) "xy".data).string ()
        = (.ok (newStringBuffer.write "xy".data).content, ()) :=
  file_none_eq_string (pureDumper "xy".data) () () (newStringBuffer.write "xy".data) rfl

/-- C10: `temporary_path()` goes through the very same creation code path
as `temporary_file(delete_when_closed=False)` — it is `_temporary_file
False` followed by taking `.name` while the handle is dropped and
finalized — so its handle is opened `w+` (readable) with UTF-8 encoding
and `delete=False`, the two produce files with identical content and
identical deletion behavior (the file persists), and only the path, not
the handle, is returned. -/
theorem temporary_path_refines_temporary_file :
    (∀ (σ ε : Type) (d : ContentDumper σ ε) (wo : World) (st : σ),
      d.temporary_path wo st =
        ⟨((d.temporary_file false wo st).handle.close (d.temporary_file false wo st).world).1,
         (d.temporary_file false wo st).state,
         (d.temporary_file false wo st).err,
         (d.temporary_file false wo st).handle.name.getD [],
         ((d.temporary_file false wo st).handle.close (d.temporary_file false wo st).world).2⟩) ∧
    (∀ (σ ε : Type) (w : Str) (wo : World) (st : σ),
      ((pureDumper (σ := σ) (ε := ε) w).temporary_path wo st).handle.mode = ['w', '+'] ∧
      ((pureDumper (σ := σ) (ε := ε) w).temporary_path wo st).handle.encoding =
        some "UTF8".data ∧
      ((pureDumper (σ := σ) (ε := ε) w).temporary_path wo st).handle.delete = false ∧
      ((pureDumper (σ := σ) (ε := ε) w).temporary_path wo st).handle.readable = true ∧
      ((pureDumper (σ := σ) (ε := ε) w).temporary_path wo st).ret = tempName wo.nextTmp ∧
      fsGet ((pureDumper (σ := σ) (ε := ε) w).temporary_path wo st).world.fs
        (tempName wo.nextTmp) = some w ∧
      fsGet (((pureDumper (σ := σ) (ε := ε) w).temporary_file false wo st).handle.close
          ((pureDumper (σ := σ) (ε := ε) w).temporary_file false wo st).world).1.fs
        (tempName wo.nextTmp) = some w) := by
  constructor
  · intro σ ε d wo st
    rfl
  · intro σ ε w wo st
    refine ⟨?_, ?_, ?_, ?_, ?_, ?_, ?_⟩ <;>
      simp [ContentDumper.temporary_path, ContentDumper.temporary_file,
        ContentDumper.temp_file_impl, pureDumper, writeStrategy, Stream.write,
        Stream.close, Stream.readable, overwriteAt_nil, fsGet_fsSet]

/-- C5: a single call to any materialization method of a JSONDumper runs
the object-provider exactly once — the instrumentation state after the
call is exactly the provider's one-invocation result on the pre-call
state, with no caching — and on success the text written is exactly one
JSON encoding of the freshly returned object. -/
theorem json_single_invocation {σ ε : Type} (d : JSONDumper σ ε) (st : σ) (p : Path)
    (wo : World) (b : Bool) (given : Option Stream) :
    ((d.string st).2 = (d.object st).2 ∧
     (d.file given st).2 = (d.object st).2 ∧
     (d.path p wo st).state = (d.object st).2 ∧
     (d.temporary_path wo st).state = (d.object st).2 ∧
     (d.temporary_file b wo st).state = (d.object st).2) ∧
    (∀ (x : Json) (st2 : σ), d.object st = (.ok (.val x), st2) →
      d.string st = (.ok (Json.encode x), st2) ∧
      d.file none st = (.ok (newStringBuffer.write (Json.encode x)), st2) ∧
      (d.path p wo st).err = none ∧
      fsGet (d.path p wo st).world.fs p = some (Json.encode x) ∧
      (d.temporary_file b wo st).handle.content = Json.encode x ∧
      fsGet (d.temporary_path wo st).world.fs (d.temporary_path wo st).ret
        = some (Json.encode x)) := by
  constructor
  · rcases hobj : d.object st with ⟨exv, st2⟩
    rcases exv with e | pv
    · simp [JSONDumper.string, JSONDumper.file, JSONDumper.path, JSONDumper.temporary_path,
        JSONDumper.temporary_file, JSONDumper.toContentDumper, JSONDumper.dump_to_file,
        ContentDumper.string, ContentDumper.file, ContentDumper.path,
        ContentDumper.temporary_path, ContentDumper.temporary_file,
        ContentDumper.temp_file_impl, hobj]
    · rcases pv with j | e <;>
        simp [JSONDumper.string, JSONDumper.file, JSONDumper.path, JSONDumper.temporary_path,
          JSONDumper.temporary_file, JSONDumper.toContentDumper, JSONDumper.dump_to_file,
          ContentDumper.string, ContentDumper.file, ContentDumper.path,
          ContentDumper.temporary_path, ContentDumper.temporary_file,
          ContentDumper.temp_file_impl, hobj]
  · intro x st2 hx
    refine ⟨?_, ?_, ?_, ?_, ?_, ?_⟩ <;>
      simp [JSONDumper.string, JSONDumper.file, JSONDumper.path, JSONDumper.temporary_path,
        JSONDumper.temporary_file, JSONDumper.toContentDumper, JSONDumper.dump_to_file,
        ContentDumper.string, ContentDumper.file, ContentDumper.path,
        ContentDumper.temporary_path, ContentDumper.temporary_file,
        ContentDumper.temp_file_impl, hx, Stream.write, Stream.seek, Stream.read,
        Stream.close, newStringBuffer, openForWrite, overwriteAt_nil, fsGet_fsSet]

theorem json_single_invocation_witness :
    (countingProvider (fun n => Json.int n)).string 5 = (.ok (Json.encode (Json.int 5)), 6) ∧
    ((countingProvider (fun n => Json.int n)).temporary_file true {} 5).state = 6 := by
  have h := json_single_invocation (countingProvider (fun n => Json.int n)) 5 [] {} true none
  exact ⟨(h.2 (Json.int 5) 6 rfl).1, h.1.2.2.2.2⟩

/-- C9: `object()` returns the provider's raw, unencoded result; and when
the provider raises, or returns an object `json.dump` cannot serialize,
that very exception propagates out of every materialization method,
untranslated. -/
theorem json_error_propagation :
    (∀ (σ ε : Type) (d : JSONDumper σ ε) (st : σ), d.object st = d.dump_to_json st) ∧
    (∀ (σ ε : Type) (d : JSONDumper σ ε) (st st2 : σ) (e : ε) (p : Path) (wo : World)
      (b : Bool) (given : Option Stream), d.object st = (.error e, st2) →
      d.string st = (.error e, st2) ∧
      d.file given st = (.error e, st2) ∧
      (d.path p wo st).err = some e ∧
      (d.path p wo st).state = st2 ∧
      (d.temporary_path wo st).err = some e ∧
      (d.temporary_file b wo st).err = some e) ∧
    (∀ (σ ε : Type) (d : JSONDumper σ ε) (st st2 : σ) (e : ε) (p : Path) (wo : World)
      (b : Bool) (given : Option Stream), d.object st = (.ok (.bad e), st2) →
      d.string st = (.error e, st2) ∧
      d.file given st = (.error e, st2) ∧
      (d.path p wo st).err = some e ∧
      (d.path p wo st).state = st2 ∧
      (d.temporary_path wo st).err = some e ∧
      (d.temporary_file b wo st).err = some e) := by
  refine ⟨fun σ ε d st => rfl, ?_, ?_⟩ <;>
  · intro σ ε d st st2 e p wo b given hx
    refine ⟨?_, ?_, ?_, ?_, ?_, ?_⟩ <;>
      simp [JSONDumper.string, JSONDumper.file, JSONDumper.path, JSONDumper.temporary_path,
        JSONDumper.temporary_file, JSONDumper.toContentDumper, JSONDumper.dump_to_file,
        ContentDumper.string, ContentDumper.file, ContentDumper.path,
        ContentDumper.temporary_path, ContentDumper.temporary_file,
        ContentDumper.temp_file_impl, hx]

/-- C6: for a JSONDumper whose object-provider returns a
JSON-representable value `x`, `string()` returns the JSON text of `x`,
and decoding that text yields a value equal to `x` — the round-trip law
decode (encode x) = x.  The witness below instantiates the scenario
where the provider returns the mapping with "a" mapped to 1 and "b"
mapped to the list 1, 2, 3. -/
theorem json_roundtrip {σ ε : Type} (d : JSONDumper σ ε) (st st2 : σ) (x : Json)
    (h : d.object st = (.ok (.val x), st2)) :
    d.string st = (.ok (Json.encode x), st2) ∧ Json.decode (Json.encode x) = some x := by
  constructor
  · simp [JSONDumper.string, JSONDumper.toContentDumper, JSONDumper.dump_to_file,
      ContentDumper.string, h, Stream.write, Stream.seek, Stream.read, newStringBuffer,
      overwriteAt_nil]
  · exact Json.decode_encode x

theorem json_roundtrip_witness :
    (constProvider (σ := Unit) (ε := Unit) exampleValue).string ()
        = (.ok "\x7b\"a\": 1, \"b\": [1, 2, 3]\x7d".data, ()) ∧
      Json.decode ("\x7b\"a\": 1, \"b\": [1, 2, 3]\x7d".data) = some exampleValue := by
  have h := json_roundtrip (constProvider (σ := Unit) (ε := Unit) exampleValue) () ()
    exampleValue rfl
  have henc : Json.encode exampleValue = "\x7b\"a\": 1, \"b\": [1, 2, 3]\x7d".data := by
    simp +decide [exampleValue, Json.encode, Json.encodeItems, Json.encodeEntries, encodeStr,
      escapeBody, escapeChar, intToChars, natToChars, digitChar, lbrace, rbrace]
  exact ⟨by rw [← henc]; exact h.1, by rw [← henc]; exact h.2⟩

theorem json_error_propagation_witness :
    (raisingProvider (σ := Nat) (ε := Nat) 7).string 0 = (.error 7, 0) ∧
    (badProvider (σ := Nat) (ε := Nat) 9).string 0 = (.error 9, 0) :=
  ⟨(json_error_propagation.2.1 Nat Nat (raisingProvider 7) 0 0 7 [] {} true none rfl).1,
   (json_error_propagation.2.2 Nat Nat (badProvider 9) 0 0 9 [] {} true none rfl).1⟩

end KnittingPattern
